import Mathlib

/-!
# Shallow embedding of the HARP derived-variable resolver and vertical-profile engine

This file embeds, in Lean, the parts of the HARP source code
(`src/libharp/harp-derived-variable.c`, `src/libharp/harp-vertical-profiles.c`,
and the ingestion-option parser) that the specification's claims are about,
and proves or refutes each claim against the embedding.

Machine doubles are modelled by the type `DVal`: a value is either NaN or an
exact number.  The code under examination only ever branches on NaN-ness and
adds/sums values, so this model captures all behaviour the claims mention.
-/

namespace Harp

/-- A double value as used by the profile code: either NaN or a finite value.
The C code only tests NaN-ness (`harp_isnan`) and accumulates sums, so exact
rationals model the arithmetic faithfully. -/
inductive DVal where
  | nan : DVal
  | val (q : ℚ) : DVal
deriving DecidableEq, Repr

/-- Model of `harp_isnan`. -/
def harp_isnan : DVal → Bool
  | .nan => true
  | .val _ => false

/-! ## `harp_profile_column_from_partial_column`
(src/libharp/harp-vertical-profiles.c, lines 346-369)

```c
double harp_profile_column_from_partial_column(long num_levels, const double *partial_column_profile)
{
    double column = 0;
    int empty = 1;
    for (k = 0; k < num_levels; k++)
        if (!harp_isnan(partial_column_profile[k])) { column += partial_column_profile[k]; empty = 0; }
    if (empty) return harp_nan();
    return column;
}
```
-/

/-- The loop state is the running sum together with the `empty` flag. -/
def column_step (p : ℚ × Bool) (x : DVal) : ℚ × Bool :=
  match x with
  | .nan => p
  | .val q => (p.1 + q, false)

/-- Embedding of `harp_profile_column_from_partial_column`: sum the non-NaN
entries in order; return NaN when every entry was NaN. -/
def harp_profile_column_from_partial_column (profile : List DVal) : DVal :=
  let p := profile.foldl column_step (0, true)
  if p.2 then .nan else .val p.1

/-- The finite value carried by a `DVal`, if any. -/
def DVal.toVal : DVal → Option ℚ
  | .nan => none
  | .val q => some q

lemma column_foldl (profile : List DVal) (a : ℚ) (e : Bool) :
    profile.foldl column_step (a, e) =
      (a + (profile.filterMap DVal.toVal).sum, e && profile.all harp_isnan) := by
  induction profile generalizing a e with
  | nil => simp
  | cons x xs ih =>
    cases x with
    | nan => simp [column_step, ih, DVal.toVal, harp_isnan]
    | val q =>
      simp [column_step, ih, DVal.toVal, harp_isnan, add_assoc]

/-! ## `get_unpadded_vector_length`
(src/libharp/harp-vertical-profiles.c, lines 1532-1545)

```c
static long get_unpadded_vector_length(double *vector, long vector_length)
{
    long i;
    for (i = vector_length - 1; i >= 0; i--)
        if (!harp_isnan(vector[i]))
            return i + 1;
    return vector_length;
}
```

The loop walks the vector from the back; `scan_back` walks the reversed list
with `i` the index of the current element in the original vector. -/

/-- The backwards loop of `get_unpadded_vector_length`: `r` is the reversed
vector, `len` the original length, `i` the original index of the head of `r`. -/
def scan_back : List DVal → ℕ → ℕ → ℕ
  | [], len, _ => len
  | x :: rest, len, i => if harp_isnan x then scan_back rest len (i - 1) else i + 1

/-- Embedding of `get_unpadded_vector_length`. -/
def get_unpadded_vector_length (vector : List DVal) : ℕ :=
  scan_back vector.reverse vector.length (vector.length - 1)

/-- Position of the first non-NaN entry of a list (used on the reversed
vector, so it is the distance of the last non-NaN entry from the back). -/
def back_find : List DVal → Option ℕ
  | [] => none
  | x :: r => if harp_isnan x then (back_find r).map (· + 1) else some 0

/-- The length the spec describes: the index one past the last non-NaN entry,
and 0 when every entry is NaN.  Stated from the spec's words
("unpadded = index after last non-NaN"), for comparison with the code. -/
def spec_unpadded_length (vector : List DVal) : ℕ :=
  match back_find vector.reverse with
  | some k => vector.length - k
  | none => 0

lemma back_find_le (r : List DVal) (k : ℕ) (h : back_find r = some k) : k < r.length := by
  induction r generalizing k with
  | nil => simp [back_find] at h
  | cons x rest ih =>
    rw [back_find] at h
    by_cases hx : harp_isnan x
    · rw [if_pos hx] at h
      cases hr : back_find rest with
      | none => rw [hr] at h; simp at h
      | some m =>
        rw [hr] at h
        simp only [Option.map_some', Option.some.injEq] at h
        have := ih m hr
        simp only [List.length_cons]
        omega
    · rw [if_neg hx] at h
      simp only [Option.some.injEq] at h
      simp [← h]

lemma back_find_none_iff (r : List DVal) :
    back_find r = none ↔ r.all harp_isnan := by
  induction r with
  | nil => simp [back_find]
  | cons x rest ih =>
    rw [back_find]
    by_cases hx : harp_isnan x
    · rw [if_pos hx]
      simp [hx, Option.map_eq_none', ih]
    · rw [if_neg hx]
      simp [hx]

lemma scan_back_eq (r : List DVal) (len i : ℕ) (hlen : i + 1 = r.length) :
    scan_back r len i =
      match back_find r with
      | some k => i + 1 - k
      | none => len := by
  induction r generalizing i with
  | nil => simp at hlen
  | cons x rest ih =>
    simp only [List.length_cons, Nat.add_right_cancel_iff] at hlen
    by_cases hx : harp_isnan x
    · cases rest with
      | nil =>
        simp only [List.length_nil] at hlen
        subst hlen
        simp [scan_back, back_find, hx]
      | cons y t =>
        have hi : 1 ≤ i := by
          rw [hlen]
          simp
        rw [scan_back, if_pos hx, ih (i - 1) (by omega)]
        have hc : back_find (x :: y :: t) = (back_find (y :: t)).map (· + 1) := by
          rw [back_find, if_pos hx]
        rw [hc]
        cases h : back_find (y :: t) with
        | none => simp
        | some k =>
          simp only [Option.map_some']
          show i - 1 + 1 - k = i + 1 - (k + 1)
          omega
    · rw [scan_back, if_neg hx, back_find, if_neg hx]
      simp

/-- **C6.** `harp_profile_column_from_partial_column` returns the sum of the
non-NaN entries and returns NaN exactly when every entry is NaN; in particular
`[NaN, 2, 3, NaN]` sums to `5` and `[NaN, NaN]` yields NaN. -/
theorem column_from_partial_column_spec :
    (∀ profile : List DVal,
      harp_profile_column_from_partial_column profile =
        if profile.all harp_isnan then DVal.nan
        else DVal.val ((profile.filterMap DVal.toVal).sum)) ∧
    harp_profile_column_from_partial_column
        [DVal.nan, DVal.val 2, DVal.val 3, DVal.nan] = DVal.val 5 ∧
    harp_profile_column_from_partial_column [DVal.nan, DVal.nan] = DVal.nan := by
  have hgen : ∀ profile : List DVal,
      harp_profile_column_from_partial_column profile =
        if profile.all harp_isnan then DVal.nan
        else DVal.val ((profile.filterMap DVal.toVal).sum) := by
    intro profile
    rw [harp_profile_column_from_partial_column, column_foldl]
    by_cases h : profile.all harp_isnan <;> simp [h]
  refine ⟨hgen, ?_, ?_⟩
  · rw [hgen]
    simp only [List.all_cons, List.filterMap_cons, DVal.toVal, harp_isnan, Bool.false_and,
      if_false, List.filterMap_nil, List.sum_cons, List.sum_nil]
    norm_num
  · rw [hgen]
    simp [harp_isnan]

/-- **C9 counterexample.** On the all-NaN vector `[NaN]` the code returns the
full length `1`, whereas the claim ("index one past the last non-NaN entry, in
particular 0 for an all-NaN column") demands `0`. -/
theorem unpadded_length_claim_false :
    get_unpadded_vector_length [DVal.nan] = 1 ∧ spec_unpadded_length [DVal.nan] = 0 := by
  constructor <;> rfl

/-- **C9 (amended).** `get_unpadded_vector_length` equals the index one past
the last non-NaN entry when at least one entry is non-NaN, and equals the full
vector length (not 0) when every entry is NaN. -/
theorem unpadded_length_spec (vector : List DVal) :
    get_unpadded_vector_length vector =
      if vector.all harp_isnan then vector.length else spec_unpadded_length vector := by
  cases hv : vector with
  | nil => simp [get_unpadded_vector_length, scan_back, spec_unpadded_length]
  | cons z zs => ?_
  rw [← hv]
  have hne' : vector.length ≠ 0 := by
    rw [hv]
    simp
  rw [get_unpadded_vector_length,
    scan_back_eq _ _ _ (by rw [List.length_reverse]; omega), spec_unpadded_length]
  have hall : (back_find vector.reverse = none) ↔ vector.all harp_isnan := by
    rw [back_find_none_iff]
    simp [List.all_eq_true]
  cases h : back_find vector.reverse with
  | none =>
    have : vector.all harp_isnan = true := hall.mp h
    simp [this]
  | some k =>
    have hne : ¬ vector.all harp_isnan = true := by
      intro hv
      rw [← hall] at hv
      rw [h] at hv
      exact Option.some_ne_none _ hv
    have hk : k < vector.reverse.length := back_find_le _ _ h
    rw [List.length_reverse] at hk
    rw [if_neg hne]
    show vector.length - 1 + 1 - k = vector.length - k
    omega

/-! ## Data model: dimension kinds, element types, variables

The `harp_variable` struct itself lives in a header that is not part of the
sources at hand; its fields are modelled from the spec's data model (§3):
name, element type tag, ordered dimension kinds with per-axis lengths, an
optional unit string, and a flat data buffer. -/

/-- The closed enumeration of dimension kinds. -/
inductive harp_dimension_type where
  | independent | time | latitude | longitude | vertical | spectral
deriving DecidableEq, Repr

/-- The closed enumeration of element types. -/
inductive harp_data_type where
  | int8 | int16 | int32 | float | double | string
deriving DecidableEq, Repr

/-- Modelled from the spec (§3, Variable): a named, typed tensor with ordered
dimension kinds, per-axis lengths, an optional unit, and a flat data buffer
(non-numeric payloads are irrelevant to the claims and carried as `DVal`). -/
structure harp_variable where
  name : String
  data_type : harp_data_type
  dimension_type : List harp_dimension_type
  dimension : List ℕ
  unit : Option String
  data : List DVal
deriving DecidableEq, Repr

/-- `list_prefix a b`: `a` is a prefix of `b`. -/
def list_prefix : List Char → List Char → Bool
  | [], _ => true
  | _ :: _, [] => false
  | a :: as, b :: bs => a = b && list_prefix as bs

/-- `list_infix a b`: `a` occurs contiguously inside `b`. -/
def list_infix (needle : List Char) : List Char → Bool
  | [] => needle.isEmpty
  | c :: t => list_prefix needle (c :: t) || list_infix needle t

/-- Model of C `strstr(haystack, needle) != NULL`: substring occurrence. -/
def strstr (haystack needle : String) : Bool :=
  list_infix needle.toList haystack.toList

/-- Suffix match, used to state the claim's reading of the name tests. -/
def str_endsWith (s suffix : String) : Bool :=
  list_prefix suffix.toList.reverse s.toList.reverse

/-! ## `get_profile_resample_type`
(src/libharp/harp-vertical-profiles.c, lines 984-1023) -/

/-- The per-variable resample category. -/
inductive profile_resample_type where
  | skip | remove | linear | interval
deriving DecidableEq, Repr

/-- Embedding of `get_profile_resample_type`.  The C code counts the vertical
axes; with exactly one vertical axis in last position it removes string-typed
variables and names containing (`strstr`) `_uncertainty` or `_avk`, resamples
names containing `_column_` by intervals, and everything else linearly; all
other variables with a vertical axis are removed. -/
def get_profile_resample_type (v : harp_variable) : profile_resample_type :=
  let num_vertical_dims := v.dimension_type.count .vertical
  if num_vertical_dims = 0 then
    .skip
  else if num_vertical_dims = 1 ∧ v.dimension_type.getLast? = some .vertical then
    if v.data_type = .string ∨ strstr v.name "_uncertainty" ∨ strstr v.name "_avk" then
      .remove
    else if strstr v.name "_column_" then
      .interval
    else
      .linear
  else
    .remove

/-- The classifier exactly as the claim words it: `Remove` requires the
`_uncertainty`/`_avk` match to be a *suffix* match; a variable with one
vertical axis in last position and no applicable exception is `Linear`.
(The claim leaves a single non-last vertical axis unclassified; this
totalization sends it to `Linear` via the final catch-all, which the
counterexample below does not exercise.) -/
def claim_resample_type (v : harp_variable) : profile_resample_type :=
  let num_vertical_dims := v.dimension_type.count .vertical
  if num_vertical_dims = 0 then
    .skip
  else if 1 < num_vertical_dims ∨ v.data_type = .string ∨
      str_endsWith v.name "_uncertainty" ∨ str_endsWith v.name "_avk" then
    .remove
  else if num_vertical_dims = 1 ∧ v.dimension_type.getLast? = some .vertical ∧
      strstr v.name "_column_" then
    .interval
  else
    .linear

/-- The variable that separates the code from the claim: one vertical axis in
last position, `float64`-typed, name `a_avkb` containing `_avk` as a
substring but not as a suffix. -/
def avk_infix_var : harp_variable :=
  { name := "a_avkb"
    data_type := .double
    dimension_type := [.vertical]
    dimension := [3]
    unit := none
    data := [DVal.val 0, DVal.val 0, DVal.val 0] }

/-- **C4 counterexample.** The claim classifies `a_avkb` (vertical-last,
`float64`, no suffix match, no `_column_`) as `Linear`, but the code's
`strstr` substring test classifies it as `Remove`. -/
theorem resample_type_claim_false :
    get_profile_resample_type avk_infix_var = .remove ∧
    claim_resample_type avk_infix_var = .linear := by
  constructor <;> decide

/-- **C4 (amended).** `get_profile_resample_type` assigns exactly one category
to every variable: `Skip` iff there is no vertical axis; `Interval` iff there
is exactly one vertical axis, in last position, the name contains `_column_`
as a substring and none of the removal exceptions apply; `Linear` iff there is
exactly one vertical axis, in last position, and no exception applies;
`Remove` in all remaining cases (more than one vertical axis, a single
vertical axis not in last position, string type, or a name containing
`_uncertainty` or `_avk` as a substring). -/
theorem resample_type_cases (v : harp_variable) :
    (get_profile_resample_type v = .skip ↔ v.dimension_type.count .vertical = 0) ∧
    (get_profile_resample_type v = .interval ↔
      (v.dimension_type.count .vertical = 1 ∧
       v.dimension_type.getLast? = some .vertical ∧
       strstr v.name "_column_" = true ∧
       ¬(v.data_type = .string ∨ strstr v.name "_uncertainty" = true ∨
         strstr v.name "_avk" = true))) ∧
    (get_profile_resample_type v = .linear ↔
      (v.dimension_type.count .vertical = 1 ∧
       v.dimension_type.getLast? = some .vertical ∧
       ¬(v.data_type = .string ∨ strstr v.name "_uncertainty" = true ∨
         strstr v.name "_avk" = true) ∧
       strstr v.name "_column_" = false)) ∧
    (get_profile_resample_type v = .remove ↔
      (v.dimension_type.count .vertical ≠ 0 ∧
       (¬(v.dimension_type.count .vertical = 1 ∧
          v.dimension_type.getLast? = some .vertical) ∨
        v.data_type = .string ∨ strstr v.name "_uncertainty" = true ∨
        strstr v.name "_avk" = true))) := by
  by_cases h0 : v.dimension_type.count .vertical = 0
  · have hv : get_profile_resample_type v = .skip := by
      simp [get_profile_resample_type, h0]
    rw [hv]
    exact ⟨by simp [h0], by simp [h0], by simp [h0], by simp [h0]⟩
  · by_cases h1 : v.dimension_type.count .vertical = 1 ∧
        v.dimension_type.getLast? = some harp_dimension_type.vertical
    · by_cases h2 : v.data_type = harp_data_type.string ∨
          strstr v.name "_uncertainty" = true ∨ strstr v.name "_avk" = true
      · have hv : get_profile_resample_type v = .remove := by
          simp only [get_profile_resample_type]
          rw [if_neg h0, if_pos h1, if_pos (by tauto)]
        rw [hv]
        refine ⟨by simp [h0], ?_, ?_, by simp [h0]; tauto⟩
        · simp only [iff_false, reduceCtorEq, false_iff]
          tauto
        · simp only [iff_false, reduceCtorEq, false_iff]
          tauto
      · by_cases h3 : strstr v.name "_column_" = true
        · have hv : get_profile_resample_type v = .interval := by
            simp only [get_profile_resample_type]
            rw [if_neg h0, if_pos h1, if_neg (by tauto), if_pos h3]
          rw [hv]
          refine ⟨by simp [h0], ?_, ?_, ?_⟩
          · simp only [true_iff]
            exact ⟨h1.1, h1.2, h3, h2⟩
          · simp only [iff_false, reduceCtorEq, false_iff]
            rintro ⟨-, -, -, hcol⟩
            rw [h3] at hcol
            exact absurd hcol (by simp)
          · simp only [iff_false, reduceCtorEq, false_iff]
            tauto
        · have hv : get_profile_resample_type v = .linear := by
            simp only [get_profile_resample_type]
            rw [if_neg h0, if_pos h1, if_neg (by tauto), if_neg (by tauto)]
          rw [hv]
          refine ⟨by simp [h0], ?_, ?_, ?_⟩
          · simp only [iff_false, reduceCtorEq, false_iff]
            tauto
          · simp only [true_iff]
            exact ⟨h1.1, h1.2, h2, by simpa using h3⟩
          · simp only [iff_false, reduceCtorEq, false_iff]
            tauto
    · have hv : get_profile_resample_type v = .remove := by
        simp only [get_profile_resample_type]
        rw [if_neg h0, if_neg h1]
      rw [hv]
      refine ⟨by simp [h0], ?_, ?_, ?_⟩
      · simp only [iff_false, reduceCtorEq, false_iff]
        tauto
      · simp only [iff_false, reduceCtorEq, false_iff]
        tauto
      · simp only [true_iff]
        exact ⟨h0, Or.inl h1⟩

/-! ## Error kinds

The error-number registry lives outside the core; the kinds used by the
embedded functions are modelled as a closed enumeration (spec §6). -/

/-- The error kinds reachable from the embedded code paths. -/
inductive HarpError where
  | outOfMemory
  | fileOpen
  | fileRead
  | invalidArgument
  | invalidName
  | variableNotFound
  | unitConversion
  | ingestionOptionSyntax
deriving DecidableEq, Repr

/-! ## Ingestion-option parser
(src/unnamed/part_000, `split_option` lines 192-237 and
`ingestion_options_from_string` lines 265-297)

Strings are processed as character lists; the C cursor arithmetic
(`str == *name`, `*str++ = '\0'`) becomes suffix lengths and `take`. -/

/-- ASCII `isspace`. -/
def isspace_c (c : Char) : Bool :=
  c = ' ' || c = '\t' || c = '\n' || c = '\x0b' || c = '\x0c' || c = '\r'

/-- ASCII `isalpha`. -/
def isalpha_c (c : Char) : Bool :=
  ('A' ≤ c && c ≤ 'Z') || ('a' ≤ c && c ≤ 'z')

/-- ASCII `isdigit`. -/
def isdigit_c (c : Char) : Bool :=
  '0' ≤ c && c ≤ '9'

/-- ASCII `isalnum`. -/
def isalnum_c (c : Char) : Bool :=
  isalpha_c c || isdigit_c c

/-- Embedding of `skip_white_space`. -/
def skip_white_space (l : List Char) : List Char :=
  l.dropWhile isspace_c

/-- Embedding of `skip_name`: nothing is consumed unless the first character
is alphabetic; then a run of `_`/alphanumeric characters is consumed. -/
def skip_name (l : List Char) : List Char :=
  match l with
  | [] => []
  | c :: cs => if !isalpha_c c then l else cs.dropWhile (fun d => d = '_' || isalnum_c d)

/-- Embedding of `skip_value`: consume a run of non-`;` non-whitespace. -/
def skip_value (l : List Char) : List Char :=
  l.dropWhile (fun c => c ≠ ';' && !isspace_c c)

/-- Embedding of `split_option`: returns `(name, value, tail)` or the
syntax-error kind, mirroring the three error exits of the C function. -/
def split_option (l : List Char) : Except HarpError (List Char × List Char × List Char) :=
  let s1 := skip_white_space l
  let s2 := skip_name s1
  if s2.length = s1.length then
    .error .ingestionOptionSyntax
  else
    let name := s1.take (s1.length - s2.length)
    let s3 := skip_white_space s2
    match s3 with
    | '=' :: s4 =>
      let s5 := skip_white_space s4
      let s6 := skip_value s5
      if s6.length = s5.length then
        .error .ingestionOptionSyntax
      else
        let value := s5.take (s5.length - s6.length)
        let tail := match s6 with
          | [] => []
          | _ :: t => t
        .ok (name, value, tail)
    | _ => .error .ingestionOptionSyntax

/-- Embedding of `ingestion_options_add_or_replace_option`: replace the value
of the first (unique) option with the same name in place, else append. -/
def ingestion_options_add_or_replace_option :
    List (String × String) → String × String → List (String × String)
  | [], o => [o]
  | p :: ps, o =>
    if p.1 = o.1 then o :: ps else p :: ingestion_options_add_or_replace_option ps o

/-- Embedding of `ingestion_options_set_option_from_string`: parse one
segment, reject trailing characters, and add-or-replace the option. -/
def ingestion_options_set_option_from_string (opts : List (String × String))
    (l : List Char) : Except HarpError (List (String × String)) :=
  match split_option l with
  | .error e => .error e
  | .ok (n, v, tail) =>
    if skip_white_space tail ≠ [] then
      .error .ingestionOptionSyntax
    else
      .ok (ingestion_options_add_or_replace_option opts (String.mk n, String.mk v))

/-- Split at every `;`, keeping empty segments (the `splitOn` convention with
a trailing empty segment when the input ends in `;`). -/
def split_segments : List Char → List (List Char)
  | [] => [[]]
  | c :: cs =>
    if c = ';' then
      [] :: split_segments cs
    else
      match split_segments cs with
      | s :: rest => (c :: s) :: rest
      | [] => [[c]]

/-- The segments processed by the outer loop of `ingestion_options_from_string`:
the loop consumes up to each `;`; an input ending in `;` produces no final
empty segment, and the empty input produces no segment at all. -/
def c_segments (l : List Char) : List (List Char) :=
  if l = [] then []
  else if l.getLast? = some ';' then (split_segments l).dropLast
  else split_segments l

/-- The outer loop body of `ingestion_options_from_string`. -/
def options_from_segments (opts : List (String × String)) :
    List (List Char) → Except HarpError (List (String × String))
  | [] => .ok opts
  | seg :: rest =>
    match ingestion_options_set_option_from_string opts seg with
    | .error e => .error e
    | .ok opts' => options_from_segments opts' rest

/-- Embedding of `harp_ingestion_options_from_string`. -/
def harp_ingestion_options_from_string (s : String) :
    Except HarpError (List (String × String)) :=
  options_from_segments [] (c_segments s.toList)

/-- **C7.** The parser accepts `name '=' value` segments separated by `;`
with whitespace around tokens: `"a=1; b = two ;c=3"` yields exactly
`[("a","1"),("b","two"),("c","3")]`; a duplicate name keeps the later value,
`"a=1;a=2"` yields `[("a","2")]`; and `"= 5"` fails with the
ingestion-option-syntax error kind. -/
theorem ingestion_options_from_string_examples :
    harp_ingestion_options_from_string "a=1; b = two ;c=3" =
      .ok [("a", "1"), ("b", "two"), ("c", "3")] ∧
    harp_ingestion_options_from_string "a=1;a=2" = .ok [("a", "2")] ∧
    harp_ingestion_options_from_string "= 5" = .error .ingestionOptionSyntax := by
  refine ⟨rfl, rfl, rfl⟩

/-! ## CSV vertical-grid import
(src/libharp/harp-vertical-profiles.c, `read_vertical_grid_header` lines
1314-1398 and `harp_profile_import_grid` lines 1406-1530)

The file is modelled by its list of lines (each a character list); the
line-counting and per-line decimal parsing collaborators
(`harp_csv_get_num_lines`, `harp_csv_parse_double`) are not part of the
sources at hand, so the count is the length of that list and the parser is a
function parameter. -/

/-- Modelled from the spec: `harp_csv_ltrim` skips leading whitespace. -/
def harp_csv_ltrim (l : List Char) : List Char :=
  l.dropWhile isspace_c

/-- Modelled from the spec: `harp_csv_rtrim` removes trailing whitespace. -/
def harp_csv_rtrim (l : List Char) : List Char :=
  (l.reverse.dropWhile isspace_c).reverse

/-- Embedding of `read_vertical_grid_header`: trim the line, take the name up
to a `[`, `,`, end or whitespace, skip whitespace, require a `[`, and take
the unit up to `]`; a missing `[` is the invalid-argument "No unit" exit. -/
def read_vertical_grid_header (line : List Char) :
    Except HarpError (List Char × List Char) :=
  let trimmed := harp_csv_ltrim (harp_csv_rtrim line)
  let name := trimmed.takeWhile (fun c => c ≠ '[' && c ≠ ',' && !isspace_c c)
  let rest := trimmed.dropWhile (fun c => c ≠ '[' && c ≠ ',' && !isspace_c c)
  match harp_csv_ltrim rest with
  | '[' :: r => .ok (name, r.takeWhile (· ≠ ']'))
  | _ => .error .invalidArgument

/-- Embedding of `harp_profile_import_grid` over the file's lines, with
`parse_double` the per-line decimal reader (collaborator, passed in).  The C
order is preserved: line count first, then the header, then the values, and
the `altitude`/`pressure` name validation last. -/
def harp_profile_import_grid (parse_double : List Char → DVal)
    (lines : List (List Char)) : Except HarpError harp_variable :=
  match lines with
  | [] => .error .fileRead
  | header :: dataLines =>
    if dataLines.length < 1 then
      .error .fileRead
    else
      match read_vertical_grid_header header with
      | .error e => .error e
      | .ok (name, unit) =>
        let values := dataLines.map parse_double
        if !(name = "altitude".toList || name = "pressure".toList) then
          .error .invalidName
        else
          .ok { name := String.mk name
                data_type := .double
                dimension_type := [.vertical]
                dimension := [dataLines.length]
                unit := some (String.mk unit)
                data := values }

/-- **C8.** `harp_profile_import_grid` succeeds only with header name
`altitude` or `pressure` and at least one data line; a well-formed header
with any other name fails with the invalid-name kind; a file without data
lines fails with an error; on success the 1-D vertical axis has one entry per
data line and carries the bracketed unit from the header. -/
theorem import_grid_spec :
    (∀ (pd : List Char → DVal) (lines : List (List Char)) (v : harp_variable),
      harp_profile_import_grid pd lines = .ok v →
      ∃ header dataLines name unit,
        lines = header :: dataLines ∧
        dataLines ≠ [] ∧
        read_vertical_grid_header header = .ok (name, unit) ∧
        (name = "altitude".toList ∨ name = "pressure".toList) ∧
        v.name = String.mk name ∧
        v.dimension_type = [.vertical] ∧
        v.dimension = [dataLines.length] ∧
        v.unit = some (String.mk unit) ∧
        v.data = dataLines.map pd) ∧
    (∀ (pd : List Char → DVal) (header : List Char) (dataLines : List (List Char))
        (name unit : List Char),
      dataLines ≠ [] →
      read_vertical_grid_header header = .ok (name, unit) →
      name ≠ "altitude".toList →
      name ≠ "pressure".toList →
      harp_profile_import_grid pd (header :: dataLines) = .error .invalidName) ∧
    (∀ (pd : List Char → DVal) (lines : List (List Char)),
      lines.length ≤ 1 →
      harp_profile_import_grid pd lines = .error .fileRead) := by
  refine ⟨?_, ?_, ?_⟩
  · intro pd lines v hok
    match lines with
    | [] => exact absurd hok (by simp [harp_profile_import_grid])
    | header :: dataLines =>
      refine ⟨header, dataLines, ?_⟩
      rw [harp_profile_import_grid] at hok
      by_cases hd : dataLines.length < 1
      · rw [if_pos hd] at hok
        exact absurd hok (by simp)
      · rw [if_neg hd] at hok
        match hh : read_vertical_grid_header header with
        | .error e =>
          rw [hh] at hok
          exact absurd hok (by simp)
        | .ok (name, unit) =>
          simp only [hh] at hok
          refine ⟨name, unit, rfl, by simpa using hd, rfl, ?_⟩
          by_cases hn : (name = "altitude".toList || name = "pressure".toList) = true
          · simp only [hn, Bool.not_true, Bool.false_eq_true, if_false,
              Except.ok.injEq] at hok
            subst hok
            simp only [Bool.or_eq_true, decide_eq_true_eq] at hn
            exact ⟨hn, rfl, rfl, rfl, rfl, rfl⟩
          · rw [Bool.not_eq_true] at hn
            simp only [hn, Bool.not_false, if_true] at hok
            exact absurd hok (by simp)
  · intro pd header dataLines name unit hne hh hna hnp
    have hlen : ¬ dataLines.length < 1 := by
      simp only [Nat.lt_one_iff, List.length_eq_zero]
      exact hne
    have hcond : (name = "altitude".toList || name = "pressure".toList) = false := by
      simp only [Bool.or_eq_false_iff, decide_eq_false_iff_not]
      exact ⟨hna, hnp⟩
    rw [harp_profile_import_grid, if_neg hlen]
    simp only [hh, hcond, Bool.not_false, if_true]
  · intro pd lines hlen
    match lines with
    | [] => rfl
    | [header] => rw [harp_profile_import_grid, if_pos (by simp)]
    | header :: a :: rest => simp at hlen

/-- **C8 witness.** A header naming `foo` with a bracketed unit and one data
line is rejected with the invalid-name kind, and a header-only file is
rejected with the file-read kind; both via `import_grid_spec`. -/
theorem import_grid_spec_witness :
    harp_profile_import_grid (fun _ => DVal.val 0)
        ["foo [m]".toList, "1".toList] = .error .invalidName ∧
    harp_profile_import_grid (fun _ => DVal.val 0)
        ["altitude [m]".toList] = .error .fileRead := by
  constructor
  · exact import_grid_spec.2.1 (fun _ => DVal.val 0) "foo [m]".toList ["1".toList]
      "foo".toList "m".toList (by decide) rfl (by decide) (by decide)
  · exact import_grid_spec.2.2 (fun _ => DVal.val 0) ["altitude [m]".toList] (by decide)

/-! ## The derived-variable resolver
(src/libharp/harp-derived-variable.c)

The registry (`harp_derived_variable_list`) maps a variable name to an
ordered list of conversion descriptors; the hashtable index of a name is its
position in the entry list.  The C planner threads a per-name `skip` bitmask
with one bit per `num_dimensions`; since the code checks a bit before
XOR-setting it and XOR-clears it afterwards, the mask is exactly the set of
`(name-index, rank)` pairs currently on the recursion stack, modelled as a
`Finset (ℕ × ℕ)`.  The C recursion has no explicit bound; the embedding
carries a fuel argument that is decremented exactly when a skip pair is
added, the quantity the termination argument of the original code rests on
(claim C3 proves fuel beyond the number of unmarked registry pairs is never
exhausted). -/

/-- Requirement on a source variable (`harp_source_variable_definition`):
name, declared type and optional unit, dimension kinds, and the required
independent-axis length (negative = unspecified). -/
structure harp_source_variable_definition where
  variable_name : String
  data_type : harp_data_type
  unit : Option String
  dimension_type : List harp_dimension_type
  independent_dimension_length : Int

/-- Conversion descriptor (`harp_variable_conversion`).  `enabled` is the
outcome of the optional gate (a NULL gate is enabled); `set_variable_data`
is the compute callback, taking the freshly created output variable and the
resolved sources and producing the filled output or an error. -/
structure harp_variable_conversion where
  variable_name : String
  data_type : harp_data_type
  unit : Option String
  dimension_type : List harp_dimension_type
  independent_dimension_length : Int
  source_definition : List harp_source_variable_definition
  enabled : Bool
  set_variable_data : harp_variable → List harp_variable → Except HarpError harp_variable

/-- The conversion registry (`harp_derived_variable_list`): ordered entries
of a variable name with its ordered conversion list; the hashtable index of
a name is its position. -/
structure harp_derived_variable_list where
  entries : List (String × List harp_variable_conversion)

/-- Model of `hashtable_get_index_from_name`: position of the entry with the
given name. -/
def find_index : List (String × List harp_variable_conversion) → String → Option ℕ
  | [], _ => none
  | e :: rest, n => if e.1 = n then some 0 else (find_index rest n).map (· + 1)

/-- The conversion list stored at a registry index
(`conversions_for_variable[index]`). -/
def conversions_at (reg : harp_derived_variable_list) (i : ℕ) :
    List harp_variable_conversion :=
  match reg.entries.get? i with
  | some e => e.2
  | none => []

/-- A product: ordered variables (unique by name) plus the table of
dimension lengths per kind.  Modelled from the spec (§3, Product). -/
structure harp_product where
  variable_list : List harp_variable
  dimension : harp_dimension_type → ℕ

/-- Modelled from the spec: `harp_product_get_variable_by_name` finds the
(unique) variable with the given name. -/
def harp_product_get_variable_by_name (p : harp_product) (name : String) :
    Option harp_variable :=
  p.variable_list.find? (fun v => v.name = name)

/-- Modelled from the spec: `harp_variable_has_dimension_types` (the public
variant, no independent-length argument) checks that the variable's ordered
dimension kinds equal the requested ones. -/
def harp_variable_has_dimension_types (v : harp_variable)
    (dims : List harp_dimension_type) : Bool :=
  decide (v.dimension_type = dims)

/-- Pointwise loop of the static `has_dimension_types` (lines 43-67): kinds
equal, and on an `independent` axis with a specified (non-negative) required
length the variable's axis length must equal it.  The leading
`num_dimensions` comparison of the C code is the shape agreement of the
three lists (a variable's kind and length lists have equal length by the
data-model invariant). -/
def var_dims_match : List harp_dimension_type → List ℕ →
    List harp_dimension_type → Int → Bool
  | [], [], [], _ => true
  | a :: as, n :: ns, b :: bs, indep =>
    decide (a = b) &&
    (!(decide (b = harp_dimension_type.independent) && decide (0 ≤ indep)) ||
      decide ((n : Int) = indep)) &&
    var_dims_match as ns bs indep
  | _, _, _, _ => false

/-- Embedding of the static `has_dimension_types` (lines 43-67). -/
def has_dimension_types (v : harp_variable) (dims : List harp_dimension_type)
    (independent_dimension_length : Int) : Bool :=
  var_dims_match v.dimension_type v.dimension dims independent_dimension_length

/-- The dimension-compatibility loop of `find_source_variable` (lines
275-295): the candidate conversion's kinds equal the requirement's kinds,
and on an `independent` axis with a specified required length the
conversion's declared independent length must equal it. -/
def source_dims_match : List harp_dimension_type → List harp_dimension_type →
    Int → Int → Bool
  | [], [], _, _ => true
  | a :: as, b :: bs, c_indep, sd_indep =>
    decide (a = b) &&
    (!(decide (a = harp_dimension_type.independent) && decide (0 ≤ sd_indep)) ||
      decide (c_indep = sd_indep)) &&
    source_dims_match as bs c_indep sd_indep
  | _, _, _, _ => false

/-- Dimension check of a candidate conversion against a source requirement. -/
def conversion_matches_source (c : harp_variable_conversion)
    (sd : harp_source_variable_definition) : Bool :=
  source_dims_match c.dimension_type sd.dimension_type
    c.independent_dimension_length sd.independent_dimension_length

/-- The set of `(registry-index, rank)` pairs present in the registry; the
planner's skip mask always stays inside this set, and its complement is the
termination measure. -/
def registry_pairs (reg : harp_derived_variable_list) : Finset (ℕ × ℕ) :=
  ((List.range reg.entries.length).flatMap
    (fun i => (conversions_at reg i).map
      (fun c => (i, c.dimension_type.length)))).toFinset

/-- Number of registry pairs not on the recursion stack: the termination
measure of the planner. -/
def remaining (reg : harp_derived_variable_list) (skip : Finset (ℕ × ℕ)) : ℕ :=
  (registry_pairs reg \ skip).card

mutual

/-- Embedding of `find_source_variable` (lines 237-329): succeed immediately
when the product holds a matching variable, otherwise try the registered
conversions for the name in order.  Returns `none` when the fuel runs out
(shown unreachable for sufficient fuel), otherwise `some found`. -/
def find_source_variable (reg : harp_derived_variable_list)
    (product : harp_product) (fuel : ℕ) (skip : Finset (ℕ × ℕ))
    (sd : harp_source_variable_definition) : Option Bool :=
  if (match harp_product_get_variable_by_name product sd.variable_name with
      | some v => has_dimension_types v sd.dimension_type
          sd.independent_dimension_length
      | none => false) then
    some true
  else
    match find_index reg.entries sd.variable_name with
    | none => some false
    | some index =>
      fsv_candidates reg product fuel skip sd index (conversions_at reg index)
termination_by (fuel, 2, 0)

/-- The candidate loop of `find_source_variable`: skip disabled conversions,
conversions already on the stack at this rank, and dimension mismatches;
otherwise mark the pair, recursively plan the sources, unmark, and either
succeed or move to the next candidate. -/
def fsv_candidates (reg : harp_derived_variable_list) (product : harp_product)
    (fuel : ℕ) (skip : Finset (ℕ × ℕ)) (sd : harp_source_variable_definition)
    (index : ℕ) : List harp_variable_conversion → Option Bool
  | [] => some false
  | c :: rest =>
    if !c.enabled then
      fsv_candidates reg product fuel skip sd index rest
    else if (index, c.dimension_type.length) ∈ skip then
      fsv_candidates reg product fuel skip sd index rest
    else if !conversion_matches_source c sd then
      fsv_candidates reg product fuel skip sd index rest
    else
      match fuel with
      | 0 => none
      | fuel' + 1 =>
        match fsv_sources reg product fuel'
            (insert (index, c.dimension_type.length) skip) c.source_definition with
        | none => none
        | some true => some true
        | some false => fsv_candidates reg product (fuel' + 1) skip sd index rest
termination_by cands => (fuel, 1, cands.length)

/-- The source loop inside a candidate: every source requirement must be
recursively satisfiable. -/
def fsv_sources (reg : harp_derived_variable_list) (product : harp_product)
    (fuel : ℕ) (skip : Finset (ℕ × ℕ)) :
    List harp_source_variable_definition → Option Bool
  | [] => some true
  | s :: rest =>
    match find_source_variable reg product fuel skip s with
    | none => none
    | some false => some false
    | some true => fsv_sources reg product fuel skip rest
termination_by srcs => (fuel, 3, srcs.length)

end

lemma conversions_at_mem_pair (reg : harp_derived_variable_list) (i : ℕ)
    (c : harp_variable_conversion) (hc : c ∈ conversions_at reg i) :
    (i, c.dimension_type.length) ∈ registry_pairs reg := by
  unfold registry_pairs
  rw [List.mem_toFinset, List.mem_flatMap]
  refine ⟨i, ?_, List.mem_map.mpr ⟨c, hc, rfl⟩⟩
  rw [List.mem_range]
  by_contra hlt
  have hnone : reg.entries.get? i = none := by
    rw [List.get?_eq_none]
    omega
  rw [conversions_at, hnone] at hc
  exact absurd hc (List.not_mem_nil c)

lemma remaining_insert_lt (reg : harp_derived_variable_list)
    (skip : Finset (ℕ × ℕ)) (p : ℕ × ℕ) (hp : p ∈ registry_pairs reg)
    (hns : p ∉ skip) : remaining reg (insert p skip) < remaining reg skip := by
  unfold remaining
  have h1 : registry_pairs reg \ insert p skip = (registry_pairs reg \ skip).erase p := by
    ext q
    simp only [Finset.mem_sdiff, Finset.mem_erase, Finset.mem_insert]
    tauto
  rw [h1]
  exact Finset.card_erase_lt_of_mem (Finset.mem_sdiff.mpr ⟨hp, hns⟩)

lemma planner_fuel_sufficient :
    ∀ (fuel : ℕ) (reg : harp_derived_variable_list) (product : harp_product)
      (skip : Finset (ℕ × ℕ)),
      (∀ sd index cands, remaining reg skip < fuel →
        (∀ c ∈ cands, c ∈ conversions_at reg index) →
        (fsv_candidates reg product fuel skip sd index cands).isSome) ∧
      (∀ sd, remaining reg skip < fuel →
        (find_source_variable reg product fuel skip sd).isSome) ∧
      (∀ srcs, remaining reg skip < fuel →
        (fsv_sources reg product fuel skip srcs).isSome) := by
  intro fuel
  induction fuel with
  | zero =>
    intro reg product skip
    exact ⟨fun _ _ _ h => absurd h (by omega),
           fun _ h => absurd h (by omega),
           fun _ h => absurd h (by omega)⟩
  | succ fuel' ih =>
    intro reg product skip
    have hC : ∀ sd index cands, remaining reg skip < fuel' + 1 →
        (∀ c ∈ cands, c ∈ conversions_at reg index) →
        (fsv_candidates reg product (fuel' + 1) skip sd index cands).isSome := by
      intro sd index cands hrem hmem
      induction cands with
      | nil => simp [fsv_candidates]
      | cons c rest ihc =>
        have hrest := ihc (fun d hd => hmem d (List.mem_cons_of_mem _ hd))
        rw [fsv_candidates]
        by_cases h1 : !c.enabled
        · rw [if_pos h1]
          exact hrest
        · rw [if_neg h1]
          by_cases h2 : (index, c.dimension_type.length) ∈ skip
          · rw [if_pos h2]
            exact hrest
          · rw [if_neg h2]
            by_cases h3 : !conversion_matches_source c sd
            · rw [if_pos h3]
              exact hrest
            · rw [if_neg h3]
              have hp : (index, c.dimension_type.length) ∈ registry_pairs reg :=
                conversions_at_mem_pair reg index c (hmem c (List.mem_cons_self c rest))
              have hrem' : remaining reg
                  (insert (index, c.dimension_type.length) skip) < fuel' := by
                have := remaining_insert_lt reg skip _ hp h2
                omega
              have hS' := (ih reg product
                (insert (index, c.dimension_type.length) skip)).2.2
                c.source_definition hrem'
              match hs : fsv_sources reg product fuel'
                  (insert (index, c.dimension_type.length) skip)
                  c.source_definition with
              | none =>
                rw [hs] at hS'
                exact absurd hS' (by simp)
              | some true => simp
              | some false => exact hrest
    have hF : ∀ sd, remaining reg skip < fuel' + 1 →
        (find_source_variable reg product (fuel' + 1) skip sd).isSome := by
      intro sd hrem
      rw [find_source_variable]
      split
      · simp
      · match find_index reg.entries sd.variable_name with
        | none => simp
        | some index =>
          exact hC sd index (conversions_at reg index) hrem (fun _ hc => hc)
    have hS : ∀ srcs, remaining reg skip < fuel' + 1 →
        (fsv_sources reg product (fuel' + 1) skip srcs).isSome := by
      intro srcs hrem
      induction srcs with
      | nil => simp [fsv_sources]
      | cons s rest ihs =>
        rw [fsv_sources]
        have hf := hF s hrem
        match h : find_source_variable reg product (fuel' + 1) skip s with
        | none =>
          rw [h] at hf
          exact absurd hf (by simp)
        | some true => exact ihs
        | some false => simp
    exact ⟨hC, hF, hS⟩

/-- **C3.** The planner terminates on every product, goal and finite
registry: the skip mask grows by the entered `(name-index, rank)` pair on
every recursive descent and pairs on the stack are never re-entered, so the
recursion depth is bounded by the number of registry pairs not yet marked;
with fuel exceeding that bound (the embedding's explicit rendering of the C
call stack) `find_source_variable` always returns a definite answer. -/
theorem planner_terminates (reg : harp_derived_variable_list)
    (product : harp_product) (fuel : ℕ) (skip : Finset (ℕ × ℕ))
    (sd : harp_source_variable_definition)
    (hfuel : remaining reg skip < fuel) :
    ∃ b, find_source_variable reg product fuel skip sd = some b := by
  have h := (planner_fuel_sufficient fuel reg product skip).2.1 sd hfuel
  exact Option.isSome_iff_exists.mp h

/-- A source requirement is derivable: either the product holds a matching
variable, or some registered, enabled conversion with matching dimensions has
all its sources derivable.  This is the "a chain of registered, enabled
conversions can produce the goal from the variables present" of the spec. -/
inductive source_derivable (reg : harp_derived_variable_list)
    (product : harp_product) : harp_source_variable_definition → Prop where
  | present : ∀ sd v,
      harp_product_get_variable_by_name product sd.variable_name = some v →
      has_dimension_types v sd.dimension_type sd.independent_dimension_length = true →
      source_derivable reg product sd
  | by_conversion : ∀ sd index c,
      find_index reg.entries sd.variable_name = some index →
      c ∈ conversions_at reg index →
      c.enabled = true →
      conversion_matches_source c sd = true →
      (∀ s ∈ c.source_definition, source_derivable reg product s) →
      source_derivable reg product sd

lemma planner_sound (fuel : ℕ) :
    ∀ (reg : harp_derived_variable_list) (product : harp_product)
      (skip : Finset (ℕ × ℕ)),
      (∀ sd index cands, (∀ c ∈ cands, c ∈ conversions_at reg index) →
        find_index reg.entries sd.variable_name = some index →
        fsv_candidates reg product fuel skip sd index cands = some true →
        source_derivable reg product sd) ∧
      (∀ sd, find_source_variable reg product fuel skip sd = some true →
        source_derivable reg product sd) ∧
      (∀ srcs, fsv_sources reg product fuel skip srcs = some true →
        ∀ s ∈ srcs, source_derivable reg product s) := by
  induction fuel using Nat.strong_induction_on with
  | _ fuel ih =>
  intro reg product skip
  have hC : ∀ sd index cands, (∀ c ∈ cands, c ∈ conversions_at reg index) →
      find_index reg.entries sd.variable_name = some index →
      fsv_candidates reg product fuel skip sd index cands = some true →
      source_derivable reg product sd := by
    intro sd index cands
    induction cands with
    | nil =>
      intro _ _ hres
      simp [fsv_candidates] at hres
    | cons c rest ihc =>
      intro hmem hfind hres
      cases fuel with
      | zero =>
        by_cases h1 : !c.enabled
        · rw [show fsv_candidates reg product 0 skip sd index (c :: rest) =
              fsv_candidates reg product 0 skip sd index rest from by
            rw [fsv_candidates, if_pos h1]] at hres
          exact ihc (fun d hd => hmem d (List.mem_cons_of_mem _ hd)) hfind hres
        · by_cases h2 : (index, c.dimension_type.length) ∈ skip
          · rw [show fsv_candidates reg product 0 skip sd index (c :: rest) =
                fsv_candidates reg product 0 skip sd index rest from by
              rw [fsv_candidates, if_neg h1, if_pos h2]] at hres
            exact ihc (fun d hd => hmem d (List.mem_cons_of_mem _ hd)) hfind hres
          · by_cases h3 : !conversion_matches_source c sd
            · rw [show fsv_candidates reg product 0 skip sd index (c :: rest) =
                  fsv_candidates reg product 0 skip sd index rest from by
                rw [fsv_candidates, if_neg h1, if_neg h2, if_pos h3]] at hres
              exact ihc (fun d hd => hmem d (List.mem_cons_of_mem _ hd)) hfind hres
            · rw [show fsv_candidates reg product 0 skip sd index (c :: rest) =
                  none from by
                rw [fsv_candidates, if_neg h1, if_neg h2, if_neg h3]] at hres
              exact absurd hres (by simp)
      | succ fuel' =>
        by_cases h1 : !c.enabled
        · rw [show fsv_candidates reg product (fuel' + 1) skip sd index
              (c :: rest) =
              fsv_candidates reg product (fuel' + 1) skip sd index rest from by
            rw [fsv_candidates, if_pos h1]] at hres
          exact ihc (fun d hd => hmem d (List.mem_cons_of_mem _ hd)) hfind hres
        · by_cases h2 : (index, c.dimension_type.length) ∈ skip
          · rw [show fsv_candidates reg product (fuel' + 1) skip sd index
                (c :: rest) =
                fsv_candidates reg product (fuel' + 1) skip sd index rest from by
              rw [fsv_candidates, if_neg h1, if_pos h2]] at hres
            exact ihc (fun d hd => hmem d (List.mem_cons_of_mem _ hd)) hfind hres
          · by_cases h3 : !conversion_matches_source c sd
            · rw [show fsv_candidates reg product (fuel' + 1) skip sd index
                  (c :: rest) =
                  fsv_candidates reg product (fuel' + 1) skip sd index rest from by
                rw [fsv_candidates, if_neg h1, if_neg h2, if_pos h3]] at hres
              exact ihc (fun d hd => hmem d (List.mem_cons_of_mem _ hd)) hfind hres
            · match hs : fsv_sources reg product fuel'
                  (insert (index, c.dimension_type.length) skip)
                  c.source_definition with
              | none =>
                rw [show fsv_candidates reg product (fuel' + 1) skip sd index
                    (c :: rest) = none from by
                  rw [fsv_candidates, if_neg h1, if_neg h2, if_neg h3, hs]] at hres
                exact absurd hres (by simp)
              | some false =>
                rw [show fsv_candidates reg product (fuel' + 1) skip sd index
                    (c :: rest) =
                    fsv_candidates reg product (fuel' + 1) skip sd index rest from by
                  rw [fsv_candidates, if_neg h1, if_neg h2, if_neg h3, hs]] at hres
                exact ihc (fun d hd => hmem d (List.mem_cons_of_mem _ hd)) hfind hres
              | some true =>
                have hsrcs := (ih fuel' (by omega) reg product
                  (insert (index, c.dimension_type.length) skip)).2.2
                  c.source_definition hs
                exact source_derivable.by_conversion sd index c hfind
                  (hmem c (List.mem_cons_self c rest))
                  (by simpa using h1) (by simpa using h3) hsrcs
  have hF : ∀ sd, find_source_variable reg product fuel skip sd = some true →
      source_derivable reg product sd := by
    intro sd hres
    rw [find_source_variable] at hres
    by_cases hpresent : (match harp_product_get_variable_by_name product
        sd.variable_name with
      | some v => has_dimension_types v sd.dimension_type
          sd.independent_dimension_length
      | none => false) = true
    · match hv : harp_product_get_variable_by_name product sd.variable_name with
      | some v =>
        refine source_derivable.present sd v hv ?_
        rw [hv] at hpresent
        exact hpresent
      | none =>
        rw [hv] at hpresent
        exact absurd hpresent (by simp)
    · rw [if_neg hpresent] at hres
      match hfind : find_index reg.entries sd.variable_name with
      | none =>
        rw [hfind] at hres
        exact absurd hres (by simp)
      | some index =>
        rw [hfind] at hres
        exact hC sd index (conversions_at reg index) (fun _ hc => hc) hfind hres
  have hS : ∀ srcs, fsv_sources reg product fuel skip srcs = some true →
      ∀ s ∈ srcs, source_derivable reg product s := by
    intro srcs
    induction srcs with
    | nil =>
      intro _ s hs
      exact absurd hs (List.not_mem_nil s)
    | cons s0 rest ihs =>
      intro hres s hs
      rw [fsv_sources] at hres
      match hf : find_source_variable reg product fuel skip s0 with
      | none =>
        rw [hf] at hres
        exact absurd hres (by simp)
      | some false =>
        rw [hf] at hres
        exact absurd hres (by simp)
      | some true =>
        rw [hf] at hres
        rcases List.mem_cons.mp hs with h | h
        · subst h
          exact hF s hf
        · exact ihs hres s h
  exact ⟨hC, hF, hS⟩

/-! ## Execution of a found conversion

`harp_variable_copy`, `harp_variable_convert_unit`,
`harp_variable_convert_data_type`, `harp_variable_has_unit` and
`harp_variable_new` live in collaborator files outside the sources at hand;
the unit/type coercions are modelled as an abstract collaborator record and
the copy as the identity (the embedding has value semantics, so a deep copy
is the value itself and mutating a copy can never reach the product). -/

/-- Modelled from the spec: the unit-conversion and type-conversion
collaborators (§6).  `harp_variable_has_unit` is syntactic equality after
normalization; `harp_variable_convert_unit` rescales a variable or fails with
a unit-conversion error; `harp_variable_convert_data_type` coerces the
element type or fails. -/
structure HarpExt where
  harp_variable_has_unit : harp_variable → String → Bool
  harp_variable_convert_unit : harp_variable → String → Except HarpError harp_variable
  harp_variable_convert_data_type : harp_variable → harp_data_type → Except HarpError harp_variable

/-- Modelled from the spec: `harp_variable_copy` is a deep copy; in value
semantics the copy is the value itself. -/
def harp_variable_copy (v : harp_variable) : harp_variable := v

/-- Embedding of `create_variable` (lines 69-110): allocate the output of a
conversion with per-axis lengths resolved against the product's dimension
table (`independent` axes use the conversion's declared length) and the
conversion's unit; `harp_variable_new` zero-fills the data buffer. -/
def create_variable (product : harp_product) (c : harp_variable_conversion) :
    harp_variable :=
  let dims := c.dimension_type.map (fun dt =>
    if dt = harp_dimension_type.independent then
      c.independent_dimension_length.toNat
    else
      product.dimension dt)
  { name := c.variable_name
    data_type := c.data_type
    dimension_type := c.dimension_type
    dimension := dims
    unit := c.unit
    data := List.replicate (dims.foldl (· * ·) 1) (DVal.val 0) }

/-- The planner entry used by the execution loop: `find_source_variable` run
with fuel that the sufficiency lemma shows is never exhausted (the `getD`
default is therefore unreachable). -/
def find_source_variable_total (reg : harp_derived_variable_list)
    (product : harp_product) (skip : Finset (ℕ × ℕ))
    (sd : harp_source_variable_definition) : Bool :=
  (find_source_variable reg product (remaining reg skip + 1) skip sd).getD false

/-- The all-sources planning check of `find_and_execute_conversion` (its
loop over `find_source_variable` results), via the total planner entry. -/
def fsv_all_sources (reg : harp_derived_variable_list)
    (product : harp_product) (skip : Finset (ℕ × ℕ)) :
    List harp_source_variable_definition → Bool
  | [] => true
  | sd :: rest =>
    find_source_variable_total reg product skip sd &&
    fsv_all_sources reg product skip rest

mutual

/-- Embedding of `find_and_execute_conversion` (lines 331-409): try the
registered conversions for the goal name in order; on the first candidate
whose sources all plan, execute it (no fallback on execution failure); if no
candidate plans, fail with the variable-not-found error. -/
def find_and_execute_conversion (ext : HarpExt)
    (reg : harp_derived_variable_list) (product : harp_product) (fuel : ℕ)
    (skip : Finset (ℕ × ℕ)) (name : String)
    (dims : List harp_dimension_type) :
    Option (Except HarpError harp_variable) :=
  match find_index reg.entries name with
  | none => some (.error .variableNotFound)
  | some index =>
    fae_candidates ext reg product fuel skip name dims index
      (conversions_at reg index)
termination_by (fuel, 2, 0)

/-- The candidate loop of `find_and_execute_conversion`: skip disabled,
on-stack and dimension-mismatched candidates; plan each source of a viable
candidate with the skip pair set; execute the first fully planned candidate
and return its result. -/
def fae_candidates (ext : HarpExt) (reg : harp_derived_variable_list)
    (product : harp_product) (fuel : ℕ) (skip : Finset (ℕ × ℕ))
    (name : String) (dims : List harp_dimension_type) (index : ℕ) :
    List harp_variable_conversion → Option (Except HarpError harp_variable)
  | [] => some (.error .variableNotFound)
  | c :: rest =>
    if !c.enabled then
      fae_candidates ext reg product fuel skip name dims index rest
    else if (index, c.dimension_type.length) ∈ skip then
      fae_candidates ext reg product fuel skip name dims index rest
    else if !decide (c.dimension_type = dims) then
      fae_candidates ext reg product fuel skip name dims index rest
    else if fsv_all_sources reg product
        (insert (index, c.dimension_type.length) skip) c.source_definition then
      match fuel with
      | 0 => none
      | fuel' + 1 =>
        perform_conversion ext reg product fuel'
          (insert (index, c.dimension_type.length) skip) c
    else
      fae_candidates ext reg product fuel skip name dims index rest
termination_by cands => (fuel, 1, cands.length)

/-- The execution-side source loop of `perform_conversion` (lines 178-235):
resolve each source requirement in order, then create the output variable
and run the conversion's compute callback on it. -/
def pc_sources (ext : HarpExt) (reg : harp_derived_variable_list)
    (product : harp_product) (fuel : ℕ) (skip : Finset (ℕ × ℕ))
    (c : harp_variable_conversion) (acc : List harp_variable) :
    List harp_source_variable_definition →
    Option (Except HarpError harp_variable)
  | [] => some (c.set_variable_data (create_variable product c) acc)
  | sd :: rest =>
    match get_source_variable ext reg product fuel skip sd with
    | none => none
    | some (.error e) => some (.error e)
    | some (.ok v) =>
      pc_sources ext reg product fuel skip c (acc ++ [v]) rest
termination_by srcs => (fuel, 4, srcs.length)

/-- Embedding of `perform_conversion` (lines 178-235). -/
def perform_conversion (ext : HarpExt) (reg : harp_derived_variable_list)
    (product : harp_product) (fuel : ℕ) (skip : Finset (ℕ × ℕ))
    (c : harp_variable_conversion) : Option (Except HarpError harp_variable) :=
  pc_sources ext reg product fuel skip c [] c.source_definition
termination_by (fuel, 5, 0)

/-- Embedding of `get_source_variable` (lines 112-176): a source already in
the product with matching dimension kinds is used, unit-coerced and then
type-coerced to the declared requirement on a copy; otherwise the source is
derived recursively and unit-coerced when a unit is declared. -/
def get_source_variable (ext : HarpExt) (reg : harp_derived_variable_list)
    (product : harp_product) (fuel : ℕ) (skip : Finset (ℕ × ℕ))
    (sd : harp_source_variable_definition) :
    Option (Except HarpError harp_variable) :=
  match
    (match harp_product_get_variable_by_name product sd.variable_name with
     | some v =>
       if harp_variable_has_dimension_types v sd.dimension_type then some v
       else none
     | none => none)
  with
  | some v =>
    some (do
      let v1 ← match sd.unit with
        | some u =>
          if !ext.harp_variable_has_unit v u then
            ext.harp_variable_convert_unit (harp_variable_copy v) u
          else
            pure v
        | none => pure v
      if v1.data_type ≠ sd.data_type then
        ext.harp_variable_convert_data_type (harp_variable_copy v1) sd.data_type
      else
        pure v1)
  | none =>
    match find_and_execute_conversion ext reg product fuel skip
        sd.variable_name sd.dimension_type with
    | none => none
    | some (.error e) => some (.error e)
    | some (.ok v) =>
      match sd.unit with
      | none => some (.ok v)
      | some u => some (ext.harp_variable_convert_unit v u)
termination_by (fuel, 3, 0)

end

/-! ## `harp_product_get_derived_variable` (lines 970-1054) and
`harp_product_add_derived_variable` (lines 1072-1123)

The C functions take the registry implicitly (a process-wide list); the
embedding passes it, together with the collaborator record, explicitly.  The
C error path for NULL `name` is modelled with `Option String`.  The outer
result is `none` exactly when the execution fuel (set to one more than the
number of registry pairs, the planner's recursion bound) runs out. -/

/-- Embedding of `harp_product_get_derived_variable`: reject a NULL name with
the invalid-argument error; if the product holds a variable of that name with
matching dimension kinds, return a (deep) copy converted to the requested
unit when one is given; otherwise find and execute a conversion and convert
the result's unit when requested.  The product itself is never modified (it
is `const` in C). -/
def harp_product_get_derived_variable (ext : HarpExt)
    (reg : harp_derived_variable_list) (product : harp_product)
    (name : Option String) (unit : Option String)
    (dims : List harp_dimension_type) :
    Option (Except HarpError harp_variable) :=
  match name with
  | none => some (.error .invalidArgument)
  | some name =>
    match
      (match harp_product_get_variable_by_name product name with
       | some v =>
         if harp_variable_has_dimension_types v dims then some v else none
       | none => none)
    with
    | some v =>
      match unit with
      | none => some (.ok (harp_variable_copy v))
      | some u => some (ext.harp_variable_convert_unit (harp_variable_copy v) u)
    | none =>
      match find_and_execute_conversion ext reg product
          (remaining reg ∅ + 1) ∅ name dims with
      | none => none
      | some (.error e) => some (.error e)
      | some (.ok v) =>
        match unit with
        | none => some (.ok v)
        | some u => some (ext.harp_variable_convert_unit v u)

/-- The goal of a `get_derived` call is derivable: some registered, enabled
conversion produces the goal name with the goal's dimension kinds and all its
sources are derivable.  Together with `source_derivable.present` for the
cheap path, this is "a chain of registered, enabled conversions can produce
the goal from the variables present in the product". -/
def goal_derivable (reg : harp_derived_variable_list) (product : harp_product)
    (name : String) (dims : List harp_dimension_type) : Prop :=
  ∃ index c, find_index reg.entries name = some index ∧
    c ∈ conversions_at reg index ∧ c.enabled = true ∧
    c.dimension_type = dims ∧
    ∀ s ∈ c.source_definition, source_derivable reg product s

lemma fsv_all_sources_sound (reg : harp_derived_variable_list)
    (product : harp_product) (skip : Finset (ℕ × ℕ))
    (srcs : List harp_source_variable_definition)
    (h : fsv_all_sources reg product skip srcs = true) :
    ∀ s ∈ srcs, source_derivable reg product s := by
  induction srcs with
  | nil => intro s hs; exact absurd hs (List.not_mem_nil s)
  | cons s0 rest ihs =>
    rw [fsv_all_sources, Bool.and_eq_true] at h
    intro s hs
    rcases List.mem_cons.mp hs with hh | hh
    · subst hh
      have h0 := h.1
      rw [find_source_variable_total] at h0
      match hf : find_source_variable reg product (remaining reg skip + 1)
          skip s with
      | none =>
        rw [hf] at h0
        exact absurd h0 (by simp)
      | some false =>
        rw [hf] at h0
        exact absurd h0 (by simp)
      | some true =>
        exact (planner_sound (remaining reg skip + 1) reg product skip).2.1 s hf
    · exact ihs h.2 s hh

lemma fae_candidates_no_plan (ext : HarpExt)
    (reg : harp_derived_variable_list) (product : harp_product) (fuel : ℕ)
    (skip : Finset (ℕ × ℕ)) (name : String)
    (dims : List harp_dimension_type) (index : ℕ)
    (cands : List harp_variable_conversion)
    (hno : ¬ ∃ c ∈ cands, c.enabled = true ∧ c.dimension_type = dims ∧
      ∀ s ∈ c.source_definition, source_derivable reg product s) :
    fae_candidates ext reg product fuel skip name dims index cands =
      some (.error .variableNotFound) := by
  induction cands with
  | nil =>
    cases fuel with
    | zero => rw [fae_candidates]
    | succ fuel' => rw [fae_candidates]
  | cons c rest ihc =>
    have hnorest : ¬ ∃ c ∈ rest, c.enabled = true ∧ c.dimension_type = dims ∧
        ∀ s ∈ c.source_definition, source_derivable reg product s := by
      intro ⟨c', hc', hrest⟩
      exact hno ⟨c', List.mem_cons_of_mem _ hc', hrest⟩
    cases fuel with
    | zero =>
      by_cases h1 : !c.enabled
      · rw [show fae_candidates ext reg product 0 skip name dims index
            (c :: rest) =
            fae_candidates ext reg product 0 skip name dims index rest from by
          rw [fae_candidates, if_pos h1]]
        exact ihc hnorest
      · by_cases h2 : (index, c.dimension_type.length) ∈ skip
        · rw [show fae_candidates ext reg product 0 skip name dims index
              (c :: rest) =
              fae_candidates ext reg product 0 skip name dims index rest from by
            rw [fae_candidates, if_neg h1, if_pos h2]]
          exact ihc hnorest
        · by_cases h3 : !decide (c.dimension_type = dims)
          · rw [show fae_candidates ext reg product 0 skip name dims index
                (c :: rest) =
                fae_candidates ext reg product 0 skip name dims index rest from by
              rw [fae_candidates, if_neg h1, if_neg h2, if_pos h3]]
            exact ihc hnorest
          · have hplan : fsv_all_sources reg product
                (insert (index, c.dimension_type.length) skip)
                c.source_definition = false := by
              by_contra hcon
              rw [Bool.not_eq_false] at hcon
              exact hno ⟨c, List.mem_cons_self c rest, by simpa using h1,
                by simpa using h3,
                fsv_all_sources_sound reg product _ _ hcon⟩
            rw [show fae_candidates ext reg product 0 skip name dims index
                (c :: rest) =
                fae_candidates ext reg product 0 skip name dims index rest from by
              rw [fae_candidates, if_neg h1, if_neg h2, if_neg h3, hplan]
              simp]
            exact ihc hnorest
    | succ fuel' =>
      by_cases h1 : !c.enabled
      · rw [show fae_candidates ext reg product (fuel' + 1) skip name dims index
            (c :: rest) =
            fae_candidates ext reg product (fuel' + 1) skip name dims index rest
            from by rw [fae_candidates, if_pos h1]]
        exact ihc hnorest
      · by_cases h2 : (index, c.dimension_type.length) ∈ skip
        · rw [show fae_candidates ext reg product (fuel' + 1) skip name dims
              index (c :: rest) =
              fae_candidates ext reg product (fuel' + 1) skip name dims index
                rest from by rw [fae_candidates, if_neg h1, if_pos h2]]
          exact ihc hnorest
        · by_cases h3 : !decide (c.dimension_type = dims)
          · rw [show fae_candidates ext reg product (fuel' + 1) skip name dims
                index (c :: rest) =
                fae_candidates ext reg product (fuel' + 1) skip name dims index
                  rest from by rw [fae_candidates, if_neg h1, if_neg h2, if_pos h3]]
            exact ihc hnorest
          · have hplan : fsv_all_sources reg product
                (insert (index, c.dimension_type.length) skip)
                c.source_definition = false := by
              by_contra hcon
              rw [Bool.not_eq_false] at hcon
              exact hno ⟨c, List.mem_cons_self c rest, by simpa using h1,
                by simpa using h3,
                fsv_all_sources_sound reg product _ _ hcon⟩
            rw [show fae_candidates ext reg product (fuel' + 1) skip name dims
                index (c :: rest) =
                fae_candidates ext reg product (fuel' + 1) skip name dims index
                  rest from by
              rw [fae_candidates, if_neg h1, if_neg h2, if_neg h3, hplan]
              simp]
            exact ihc hnorest

/-! ## Concrete instances: the two-conversion cycle and a one-variable product -/

/-- A compute callback that returns the allocated output unchanged (the
callbacks of the cyclic example are never reached). -/
def conv_compute_id : harp_variable → List harp_variable →
    Except HarpError harp_variable :=
  fun out _ => .ok out

/-- The requirement "variable `A`, double, no unit, zero-dimensional". -/
def srcA_req : harp_source_variable_definition :=
  { variable_name := "A"
    data_type := .double
    unit := none
    dimension_type := []
    independent_dimension_length := -1 }

/-- The requirement "variable `B`, double, no unit, zero-dimensional". -/
def srcB_req : harp_source_variable_definition :=
  { variable_name := "B"
    data_type := .double
    unit := none
    dimension_type := []
    independent_dimension_length := -1 }

/-- The conversion `A ← B`. -/
def convA : harp_variable_conversion :=
  { variable_name := "A"
    data_type := .double
    unit := none
    dimension_type := []
    independent_dimension_length := -1
    source_definition := [srcB_req]
    enabled := true
    set_variable_data := conv_compute_id }

/-- The conversion `B ← A`. -/
def convB : harp_variable_conversion :=
  { variable_name := "B"
    data_type := .double
    unit := none
    dimension_type := []
    independent_dimension_length := -1
    source_definition := [srcA_req]
    enabled := true
    set_variable_data := conv_compute_id }

/-- The registry holding only the cycle `A ← B`, `B ← A`. -/
def regAB : harp_derived_variable_list :=
  { entries := [("A", [convA]), ("B", [convB])] }

/-- The empty product. -/
def empty_product : harp_product :=
  { variable_list := [], dimension := fun _ => 0 }

/-- A collaborator record whose unit and type conversions are identities
(adequate for goals that request no coercion). -/
def ext0 : HarpExt :=
  { harp_variable_has_unit := fun _ _ => true
    harp_variable_convert_unit := fun v _ => .ok v
    harp_variable_convert_data_type := fun v _ => .ok v }

/-- A zero-dimensional variable named `x`. -/
def var_x : harp_variable :=
  { name := "x"
    data_type := .double
    dimension_type := []
    dimension := []
    unit := some "hPa"
    data := [DVal.val 1] }

/-- A product holding only `x`. -/
def prod_x : harp_product :=
  { variable_list := [var_x], dimension := fun _ => 0 }

lemma regAB_not_derivable (sd : harp_source_variable_definition)
    (h : source_derivable regAB empty_product sd) : False := by
  induction h with
  | present sd v hv _ =>
    simp [harp_product_get_variable_by_name, empty_product] at hv
  | by_conversion sd index c hfind hc hen hmatch hsrcs ihsrcs =>
    match index with
    | 0 =>
      have hc' : c = convA := by
        have : conversions_at regAB 0 = [convA] := rfl
        rw [this] at hc
        simpa using hc
      subst hc'
      exact ihsrcs srcB_req (by simp [convA])
    | 1 =>
      have hc' : c = convB := by
        have : conversions_at regAB 1 = [convB] := rfl
        rw [this] at hc
        simpa using hc
      subst hc'
      exact ihsrcs srcA_req (by simp [convB])
    | (n + 2) =>
      have : conversions_at regAB (n + 2) = [] := rfl
      rw [this] at hc
      exact absurd hc (List.not_mem_nil c)

lemma regAB_goal_not_derivable (name : String)
    (dims : List harp_dimension_type) :
    ¬ goal_derivable regAB empty_product name dims := by
  intro ⟨index, c, hfind, hc, hen, hdims, hsrcs⟩
  match index with
  | 0 =>
    have hc' : c = convA := by
      have : conversions_at regAB 0 = [convA] := rfl
      rw [this] at hc
      simpa using hc
    subst hc'
    exact regAB_not_derivable srcB_req (hsrcs srcB_req (by simp [convA]))
  | 1 =>
    have hc' : c = convB := by
      have : conversions_at regAB 1 = [convB] := rfl
      rw [this] at hc
      simpa using hc
    subst hc'
    exact regAB_not_derivable srcA_req (hsrcs srcA_req (by simp [convB]))
  | (n + 2) =>
    have : conversions_at regAB (n + 2) = [] := rfl
    rw [this] at hc
    exact absurd hc (List.not_mem_nil c)

/-- **C1.** When no chain of registered, enabled conversions can produce the
goal from the variables present in the product (and the product does not hold
it directly), `harp_product_get_derived_variable` fails with the
variable-not-found error kind; in particular, with the registry holding only
the cyclic conversions `A ← B` and `B ← A`, requesting `A` on an empty
product fails with variable-not-found instead of recursing forever. -/
theorem get_derived_variable_not_found :
    (∀ (ext : HarpExt) (reg : harp_derived_variable_list)
        (product : harp_product) (name : String) (unit : Option String)
        (dims : List harp_dimension_type),
      (∀ v, harp_product_get_variable_by_name product name = some v →
        harp_variable_has_dimension_types v dims = false) →
      ¬ goal_derivable reg product name dims →
      harp_product_get_derived_variable ext reg product (some name) unit dims =
        some (.error .variableNotFound)) ∧
    harp_product_get_derived_variable ext0 regAB empty_product (some "A")
      none [] = some (.error .variableNotFound) := by
  have hgen : ∀ (ext : HarpExt) (reg : harp_derived_variable_list)
      (product : harp_product) (name : String) (unit : Option String)
      (dims : List harp_dimension_type),
      (∀ v, harp_product_get_variable_by_name product name = some v →
        harp_variable_has_dimension_types v dims = false) →
      ¬ goal_derivable reg product name dims →
      harp_product_get_derived_variable ext reg product (some name) unit dims =
        some (.error .variableNotFound) := by
    intro ext reg product name unit dims hvar hgoal
    have hcheap : (match harp_product_get_variable_by_name product name with
        | some v =>
          if harp_variable_has_dimension_types v dims then some v else none
        | none => none) = (none : Option harp_variable) := by
      match hv : harp_product_get_variable_by_name product name with
      | some v => simp [hvar v hv]
      | none => rfl
    rw [harp_product_get_derived_variable]
    rw [hcheap]
    have hfae : find_and_execute_conversion ext reg product
        (remaining reg ∅ + 1) ∅ name dims =
        some (.error .variableNotFound) := by
      rw [find_and_execute_conversion]
      match hfind : find_index reg.entries name with
      | none => rfl
      | some index =>
        refine fae_candidates_no_plan ext reg product _ ∅ name dims index
          (conversions_at reg index) ?_
        intro ⟨c, hc, hen, hdims, hsrcs⟩
        exact hgoal ⟨index, c, hfind, hc, hen, hdims, hsrcs⟩
    rw [hfae]
  refine ⟨hgen, ?_⟩
  refine hgen ext0 regAB empty_product "A" none [] ?_ ?_
  · intro v hv
    simp [harp_product_get_variable_by_name, empty_product] at hv
  · exact regAB_goal_not_derivable "A" []

/-- **C1 witness.** The general statement applied to the concrete
two-conversion cycle on the empty product. -/
theorem get_derived_variable_not_found_witness :
    harp_product_get_derived_variable ext0 regAB empty_product (some "B")
      none [] = some (.error .variableNotFound) := by
  refine get_derived_variable_not_found.1 ext0 regAB empty_product "B" none []
    ?_ ?_
  · intro v hv
    simp [harp_product_get_variable_by_name, empty_product] at hv
  · exact regAB_goal_not_derivable "B" []

/-- **C10.** Calling `harp_product_get_derived_variable` with a NULL name
fails immediately with the invalid-argument error kind; the check precedes
every use of the name and of the product (which the function takes as
`const` and never modifies), so the product is left unchanged. -/
theorem get_derived_null_name (ext : HarpExt)
    (reg : harp_derived_variable_list) (product : harp_product)
    (unit : Option String) (dims : List harp_dimension_type) :
    harp_product_get_derived_variable ext reg product none unit dims =
      some (.error .invalidArgument) := rfl

/-- **C2.** If the product holds a variable `v` named `n` whose dimension
kinds match the request, `harp_product_get_derived_variable` succeeds with a
deep copy of `v` — returned as-is when no unit is requested, and passed
through the unit-conversion collaborator when one is.  The embedding has
value semantics: `harp_variable_copy` is the identity and the returned value
is independent of the product, so mutating the returned copy cannot change
the variable stored in the product. -/
theorem get_derived_existing_copy (ext : HarpExt)
    (reg : harp_derived_variable_list) (product : harp_product) (n : String)
    (dims : List harp_dimension_type) (v : harp_variable)
    (hfind : harp_product_get_variable_by_name product n = some v)
    (hdims : harp_variable_has_dimension_types v dims = true) :
    harp_product_get_derived_variable ext reg product (some n) none dims =
      some (.ok v) ∧
    ∀ u, harp_product_get_derived_variable ext reg product (some n) (some u)
      dims = some (ext.harp_variable_convert_unit v u) := by
  constructor
  · simp [harp_product_get_derived_variable, hfind, hdims, harp_variable_copy]
  · intro u
    simp [harp_product_get_derived_variable, hfind, hdims, harp_variable_copy]

/-- **C2 witness.** The cheap path on a one-variable product: no unit
requested returns the stored variable; a requested unit goes through the
collaborator (an identity here). -/
theorem get_derived_existing_copy_witness :
    harp_product_get_derived_variable ext0 regAB prod_x (some "x") none [] =
      some (.ok var_x) ∧
    harp_product_get_derived_variable ext0 regAB prod_x (some "x")
      (some "Pa") [] = some (.ok var_x) := by
  have h := get_derived_existing_copy ext0 regAB prod_x "x" [] var_x rfl rfl
  exact ⟨h.1, h.2 "Pa"⟩

/-! ## `harp_product_add_derived_variable` (lines 1072-1123) -/

/-- Modelled from the spec: `harp_product_remove_variable` removes the
(unique) variable with the given name, preserving the relative order of the
survivors (§5, ordering guarantees). -/
def harp_product_remove_variable (P : harp_product) (name : String) :
    harp_product :=
  { P with variable_list := P.variable_list.eraseP (fun w => w.name = name) }

/-- Modelled from the spec: `harp_product_add_variable` appends the variable;
a name already present is a product-consistency error (§3: names are unique
per product).  The dimension-length bookkeeping of the collaborator has no
bearing on the claims and is left untouched. -/
def harp_product_add_variable (P : harp_product) (v : harp_variable) :
    Except HarpError harp_product :=
  if P.variable_list.any (fun w => w.name = v.name) then
    .error .invalidArgument
  else
    .ok { P with variable_list := P.variable_list ++ [v] }

/-- In-place update of the (unique) variable with the given name, as
performed by `harp_variable_convert_unit` on a variable owned by the
product. -/
def replace_by_name : List harp_variable → String → harp_variable →
    List harp_variable
  | [], _, _ => []
  | w :: ws, n, v' =>
    if w.name = n then v' :: ws else w :: replace_by_name ws n v'

/-- The fresh-derivation branch of `harp_product_add_derived_variable`:
derive the variable, remove the same-named variable with different
dimensions when one was found, and add the new variable. -/
def add_derived_fresh (ext : HarpExt) (reg : harp_derived_variable_list)
    (P : harp_product) (name : String) (unit : Option String)
    (dims : List harp_dimension_type) (had_other : Bool) :
    Option (Except HarpError harp_product) :=
  match harp_product_get_derived_variable ext reg P (some name) unit dims with
  | none => none
  | some (.error e) => some (.error e)
  | some (.ok nv) =>
    let P1 := if had_other then harp_product_remove_variable P name else P
    some (harp_product_add_variable P1 nv)

/-- Embedding of `harp_product_add_derived_variable`: when the product
already holds the name with matching dimension kinds, at most an in-place
unit conversion happens (nothing at all when no unit is given or the unit
already matches); otherwise a fresh variable is derived, any same-named
variable with different dimensions is removed, and the new variable added. -/
def harp_product_add_derived_variable (ext : HarpExt)
    (reg : harp_derived_variable_list) (P : harp_product) (name : String)
    (unit : Option String) (dims : List harp_dimension_type) :
    Option (Except HarpError harp_product) :=
  match harp_product_get_variable_by_name P name with
  | some v =>
    if harp_variable_has_dimension_types v dims then
      match unit with
      | some u =>
        if !ext.harp_variable_has_unit v u then
          match ext.harp_variable_convert_unit v u with
          | .error e => some (.error e)
          | .ok v' =>
            some (.ok { P with
              variable_list := replace_by_name P.variable_list name v' })
        else
          some (.ok P)
      | none => some (.ok P)
    else
      add_derived_fresh ext reg P name unit dims true
  | none => add_derived_fresh ext reg P name unit dims false

lemma mem_eraseP_of_ne (l : List harp_variable) (n : String)
    (w : harp_variable) (hw : w ∈ l) (hne : w.name ≠ n) :
    w ∈ l.eraseP (fun x => x.name = n) := by
  induction l with
  | nil => exact absurd hw (List.not_mem_nil w)
  | cons x xs ih =>
    rw [List.eraseP_cons]
    by_cases hx : x.name = n
    · have hd : (decide (x.name = n)) = true := by simp [hx]
      rw [hd, Bool.cond_true]
      rcases List.mem_cons.mp hw with h | h
      · subst h
        exact absurd hx hne
      · exact h
    · have hd : (decide (x.name = n)) = false := by simp [hx]
      rw [hd, Bool.cond_false]
      rcases List.mem_cons.mp hw with h | h
      · subst h
        exact List.mem_cons_self w _
      · exact List.mem_cons_of_mem x (ih h)

lemma mem_replace_by_name_of_ne (l : List harp_variable) (n : String)
    (v' w : harp_variable) (hw : w ∈ l) (hne : w.name ≠ n) :
    w ∈ replace_by_name l n v' := by
  induction l with
  | nil => exact absurd hw (List.not_mem_nil w)
  | cons x xs ih =>
    rw [replace_by_name]
    by_cases hx : x.name = n
    · rw [if_pos hx]
      rcases List.mem_cons.mp hw with h | h
      · subst h
        exact absurd hx hne
      · exact List.mem_cons_of_mem v' h
    · rw [if_neg hx]
      rcases List.mem_cons.mp hw with h | h
      · subst h
        exact List.mem_cons_self w _
      · exact List.mem_cons_of_mem x (ih h)

/-- **C5.** `harp_product_add_derived_variable`: when the requested name is
present with matching dimension kinds, the product is returned completely
unchanged when no unit is given (or the unit already matches), and the only
modification when a unit conversion is needed is the in-place replacement of
that one variable; otherwise a fresh variable is derived through
`harp_product_get_derived_variable`, the same-named variable with different
dimensions (if any) is removed order-preservingly, and the new variable is
appended — every other variable of the product is untouched. -/
theorem add_derived_variable_frame (ext : HarpExt)
    (reg : harp_derived_variable_list) (P : harp_product) (n : String)
    (dims : List harp_dimension_type) :
    (∀ v, harp_product_get_variable_by_name P n = some v →
      harp_variable_has_dimension_types v dims = true →
      harp_product_add_derived_variable ext reg P n none dims =
        some (.ok P)) ∧
    (∀ v u, harp_product_get_variable_by_name P n = some v →
      harp_variable_has_dimension_types v dims = true →
      ext.harp_variable_has_unit v u = true →
      harp_product_add_derived_variable ext reg P n (some u) dims =
        some (.ok P)) ∧
    (∀ v u v', harp_product_get_variable_by_name P n = some v →
      harp_variable_has_dimension_types v dims = true →
      ext.harp_variable_has_unit v u = false →
      ext.harp_variable_convert_unit v u = .ok v' →
      harp_product_add_derived_variable ext reg P n (some u) dims =
        some (.ok { P with
          variable_list := replace_by_name P.variable_list n v' })) ∧
    (∀ unit nv,
      (∀ v, harp_product_get_variable_by_name P n = some v →
        harp_variable_has_dimension_types v dims = false) →
      harp_product_get_derived_variable ext reg P (some n) unit dims =
        some (.ok nv) →
      harp_product_add_derived_variable ext reg P n unit dims =
        some (harp_product_add_variable
          (if (harp_product_get_variable_by_name P n).isSome then
            harp_product_remove_variable P n
          else P) nv)) ∧
    (∀ w, w ∈ P.variable_list → w.name ≠ n →
      w ∈ (harp_product_remove_variable P n).variable_list) ∧
    (∀ v' w, w ∈ P.variable_list → w.name ≠ n →
      w ∈ replace_by_name P.variable_list n v') ∧
    (∀ (P₁ : harp_product) (nv : harp_variable) (P' : harp_product),
      harp_product_add_variable P₁ nv = .ok P' →
      P'.variable_list = P₁.variable_list ++ [nv]) := by
  refine ⟨?_, ?_, ?_, ?_, ?_, ?_, ?_⟩
  · intro v hfind hdims
    simp [harp_product_add_derived_variable, hfind, hdims]
  · intro v u hfind hdims hunit
    simp [harp_product_add_derived_variable, hfind, hdims, hunit]
  · intro v u v' hfind hdims hunit hconv
    simp [harp_product_add_derived_variable, hfind, hdims, hunit, hconv]
  · intro unit nv hmiss hder
    match hfind : harp_product_get_variable_by_name P n with
    | some v =>
      have hdims := hmiss v hfind
      rw [harp_product_add_derived_variable]
      simp only [hfind, hdims, Bool.false_eq_true, if_false]
      rw [add_derived_fresh, hder]
      simp
    | none =>
      rw [harp_product_add_derived_variable]
      simp only [hfind]
      rw [add_derived_fresh, hder]
      simp
  · intro w hw hne
    exact mem_eraseP_of_ne P.variable_list n w hw hne
  · intro v' w hw hne
    exact mem_replace_by_name_of_ne P.variable_list n v' w hw hne
  · intro P₁ nv P' hadd
    rw [harp_product_add_variable] at hadd
    by_cases hany : P₁.variable_list.any (fun w => w.name = nv.name)
    · rw [if_pos hany] at hadd
      exact absurd hadd (by simp)
    · rw [if_neg hany] at hadd
      simp only [Except.ok.injEq] at hadd
      rw [← hadd]

/-- **C5 witness.** Adding `x` (already present with matching dimensions,
no unit requested) leaves the one-variable product untouched. -/
theorem add_derived_variable_frame_witness :
    harp_product_add_derived_variable ext0 regAB prod_x "x" none [] =
      some (.ok prod_x) :=
  (add_derived_variable_frame ext0 regAB prod_x "x" []).1 var_x rfl rfl

/-- **C3 witness.** On the cyclic two-conversion registry (two registry
pairs, none marked) fuel 3 suffices: the planner returns a definite answer
for the goal `A`. -/
theorem planner_terminates_witness :
    ∃ b, find_source_variable regAB empty_product 3 ∅ srcA_req = some b :=
  planner_terminates regAB empty_product 3 ∅ srcA_req (by decide)

end Harp
